import Mathlib

/-!
# fasthttploader: command-line front end (`main.go`)

A shallow embedding of `main`, `applyHeaders` and `usageAndExit` of `main.go`,
together with the regular expression `re` that parses the `-h` flag.

* Go strings are lists of characters (`Str`).
* The process is observed through the list of events it produces, in order;
  every complete execution of `main` ends with an `Event.exit`.
* `req.Header` is the list of `Header.Set` calls in the order they were made;
  `Header.Peek` reads it as a last-write-wins map.
* `run`, `report.OpenBrowser`, `report.PrintOpenBrowser`, `os.Create` and the
  profiler live outside `main.go`: calls to them are events, and what they
  return is read from `Env`.
-/

namespace Fasthttploader

/-- Go strings, as lists of characters. -/
abbrev Str := List Char

/-! ## Flags -/

/-- The parsed command line: one field per flag variable of `main.go`, and
`args` for `flag.Args()`.  Durations are nanosecond counts. -/
structure Config where
  method : Str
  headers : Str
  body : Str
  accept : Str
  contentType : Str
  fileName : Str
  web : Bool
  d : Int
  t : Int
  q : Int
  c : Int
  debug : Bool
  disableKeepAlive : Bool
  disableCompression : Bool
  successStatusCode : Int
  cpuprofile : Str
  memprofile : Str
  args : List Str
  deriving DecidableEq

/-- One second, `time.Second`, in nanoseconds. -/
def Second : Int := 1000000000

/-- The flag defaults declared in the `var (...)` block, for the given
positional arguments. -/
def defaultConfig (args : List Str) : Config where
  method := "GET".toList
  headers := []
  body := []
  accept := []
  contentType := "text/html".toList
  fileName := "report.html".toList
  web := false
  d := 30 * Second
  t := 5 * Second
  q := 0
  c := 500
  debug := false
  disableKeepAlive := false
  disableCompression := false
  successStatusCode := 200
  cpuprofile := []
  memprofile := []
  args := args

/-- What the calls that leave `main.go` return on one execution. -/
structure Env where
  /-- `os.Create(*cpuprofile)` returns a nil error -/
  createCpu : Bool
  /-- `os.Create(*memprofile)` returns a nil error -/
  createMem : Bool
  /-- the error text of `report.OpenBrowser(*fileName)`, if it fails -/
  openBrowser : Option Str
  /-- the command returned by `report.PrintOpenBrowser(*fileName)` -/
  printCommand : Str
  /-- the error text of `report.PrintOpenBrowser(*fileName)`, if it fails -/
  printErr : Option Str
  deriving DecidableEq

/-! ## The request template -/

/-- The global `req`: the `Header.Set` calls made so far (oldest first), and
the method, request URI and body. -/
structure Request where
  header : List (Str × Str)
  method : Str
  uri : Str
  body : Str
  deriving DecidableEq

/-- The value of `new(fasthttp.Request)`. -/
def Request.new : Request := ⟨[], [], [], []⟩

/-- The call `req.Header.Set(key, value)`. -/
def Request.Set (req : Request) (key value : Str) : Request :=
  { req with header := req.header ++ [(key, value)] }

/-- The call `req.Header.SetContentType(value)`: it writes the `Content-Type` entry. -/
def Request.SetContentType (req : Request) (value : Str) : Request :=
  req.Set "Content-Type".toList value

/-- The call `req.Header.SetMethod(m)`. -/
def Request.SetMethod (req : Request) (m : Str) : Request :=
  { req with method := m }

/-- The call `req.Header.SetRequestURI(u)`. -/
def Request.SetRequestURI (req : Request) (u : Str) : Request :=
  { req with uri := u }

/-- The call `req.AppendBodyString(s)`. -/
def Request.AppendBodyString (req : Request) (s : Str) : Request :=
  { req with body := req.body ++ s }

/-- The header list read as a last-write-wins map: the value of the latest
`Set` whose key is the same as `key`.  Keys are compared after `canon`, the
key canonicalisation of the header implementation (`id` for exact keys). -/
def Header.Peek (canon : Str → Str) (key : Str) (h : List (Str × Str)) : Option Str :=
  (h.reverse.find? fun e => decide (canon e.1 = canon key)).map fun e => e.2

/-- The function `strings.ToUpper` on ASCII letters (other characters are kept). -/
def ToUpper (s : Str) : Str := s.map Char.toUpper

/-! ## Events -/

/-- What an execution does that can be seen from outside. -/
inductive Event where
  /-- `flag.Usage()`: the usage text and the flag defaults, on stderr -/
  | usage
  /-- `fmt.Print` and `fmt.Printf`: the text written to stdout -/
  | stdout (text : Str)
  /-- `fmt.Fprintf(os.Stderr, format)`, with no further argument -/
  | stderrf (format : Str)
  /-- the logging half of `log.Fatal(err)` -/
  | logFatal
  /-- `pprof.StartCPUProfile(f)` -/
  | startCPUProfile
  /-- the deferred `pprof.StopCPUProfile()` -/
  | stopCPUProfile
  /-- `run()`, called with the request template in this state -/
  | run (req : Request)
  /-- `report.OpenBrowser(*fileName)` -/
  | openBrowser (file : Str)
  /-- `report.PrintOpenBrowser(*fileName)` -/
  | printOpenBrowser (file : Str)
  /-- `pprof.WriteHeapProfile(f)` followed by `f.Close()` -/
  | writeHeapProfile
  /-- an index-out-of-range panic -/
  | goPanic
  /-- the process ends with this status -/
  | exit (status : Nat)
  deriving DecidableEq

/-- The function `usageAndExit`: it never returns; these are its events. -/
def usageAndExit (msg : Str) : List Event :=
  [Event.usage] ++
  (if msg ≠ [] then
    [Event.stdout "----------------------------\nErr: ".toList,
     Event.stderrf msg,
     Event.stderrf "\n\n".toList]
   else []) ++
  [Event.exit 1]

/-- What `fmt.Fprintf(w, format)` writes when it is called with no operand
and `format` holds no `%`: the format itself.  A format that holds a `%` goes
through the verb processing of `fmt`, which is not embedded here (`none`). -/
def Fprintf (format : Str) : Option Str :=
  if '%' ∈ format then none else some format

/-! ## The regular expression `^([\w-]+):\s*(.+)` -/

/-- The class `\w`: ASCII letters, digits and the underscore. -/
def isWord (c : Char) : Bool :=
  (('0' ≤ c ∧ c ≤ '9') ∨ ('A' ≤ c ∧ c ≤ 'Z') ∨ ('a' ≤ c ∧ c ≤ 'z') ∨ c = '_')

/-- The class `[\w-]`. -/
def isWordDash (c : Char) : Bool := isWord c || c == '-'

/-- The class `\s`: tab, line feed, form feed, carriage return, space. -/
def isSpace (c : Char) : Bool :=
  c == '\t' || c == '\n' || c == Char.ofNat 12 || c == '\r' || c == ' '

/-- The class `.`: every character but the line feed. -/
def isDot (c : Char) : Bool := c != '\n'

/-- The class of the literal `:`. -/
def isColon (c : Char) : Bool := c == ':'

/-- How often an atom repeats: once, `*` or `+` (both greedy). -/
inductive Quant where
  | one
  | star
  | plus
  deriving DecidableEq

/-- One atom of a pattern: a character class and its repetition. -/
structure Atom where
  cls : Char → Bool
  q : Quant

/-- Greedy repetition of the class `p` followed by the rest of the pattern
`k`: the longest run of `p` is tried first and given back one character at a
time while `k` fails.  Returns the run taken and the result of `k`. -/
def greedy (p : Char → Bool) (k : Str → Option (List Str)) : Str → Option (Str × List Str)
  | [] => (k []).map fun r => ([], r)
  | c :: s =>
    if p c then
      match greedy p k s with
      | some (m, r) => some (c :: m, r)
      | none => (k (c :: s)).map fun r => ([], r)
    else (k (c :: s)).map fun r => ([], r)

/-- Backtracking match of a sequence of atoms at the start of the input,
first match wins; returns the text taken by each atom. -/
def matchAtoms : List Atom → Str → Option (List Str)
  | [], _ => some []
  | a :: rest, s =>
    match a.q, s with
    | Quant.one, [] => none
    | Quant.one, c :: s1 =>
      if a.cls c then (matchAtoms rest s1).map fun r => [c] :: r else none
    | Quant.star, s =>
      (greedy a.cls (matchAtoms rest) s).map fun mr => mr.1 :: mr.2
    | Quant.plus, [] => none
    | Quant.plus, c :: s1 =>
      if a.cls c then
        (greedy a.cls (matchAtoms rest) s1).map fun mr => (c :: mr.1) :: mr.2
      else none

/-- The pattern `re`, anchored at the start: `[\w-]+`, `:`, `\s*`, `.+`. -/
def re : List Atom :=
  [⟨isWordDash, Quant.plus⟩, ⟨isColon, Quant.one⟩, ⟨isSpace, Quant.star⟩, ⟨isDot, Quant.plus⟩]

/-- The call `re.FindStringSubmatch(s)`: the whole match and the two groups,
or the empty slice when `s` does not match. -/
def FindStringSubmatch (s : Str) : List Str :=
  match matchAtoms re s with
  | some [g1, colon, ws, g2] => [g1 ++ colon ++ ws ++ g2, g1, g2]
  | _ => []

/-- The call `strings.Split(s, sep)` for a one-character separator. -/
def Split (sep : Char) : Str → List Str
  | [] => [[]]
  | c :: s =>
    if c = sep then [] :: Split sep s
    else
      match Split sep s with
      | seg :: segs => (c :: seg) :: segs
      | [] => [[c]]

/-! ## `applyHeaders` and `main` -/

/-- The message `fmt.Sprintf("could not parse the provided input; input = %v", h)`. -/
def parseErrorMsg (h : Str) : Str :=
  "could not parse the provided input; input = ".toList ++ h

/-- The loop `for _, h := range headers` of `applyHeaders`: the request after
the loop, or the events of the `usageAndExit` that ends the process. -/
def applyHeaderList (req : Request) : List Str → Except (List Event) Request
  | [] => Except.ok req
  | h :: hs =>
    let ms := FindStringSubmatch h
    if ms.length < 1 then Except.error (usageAndExit (parseErrorMsg h))
    else applyHeaderList (req.Set (ms.getD 1 []) (ms.getD 2 [])) hs

/-- The function `applyHeaders` on the request `req`: the request it leaves,
or the events with which it ends the process. -/
def applyHeaders (cfg : Config) (req : Request) : Except (List Event) Request :=
  let req1 := req.SetContentType cfg.contentType
  match (if cfg.headers ≠ [] then applyHeaderList req1 (Split ';' cfg.headers)
         else Except.ok req1) with
  | Except.error out => Except.error out
  | Except.ok req2 =>
    let req3 := if cfg.accept ≠ [] then req2.Set "Accept".toList cfg.accept else req2
    match cfg.args with
    | [] => Except.error [Event.goPanic, Event.exit 2]
    | url :: _ =>
      let req4 := (req3.SetMethod (ToUpper cfg.method)).SetRequestURI url
      let req5 :=
        if !cfg.disableCompression then req4.Set "Accept-Encoding".toList "gzip".toList
        else req4
      if cfg.disableKeepAlive then
        Except.ok (req5.Set "Connection".toList "close".toList)
      else
        Except.ok (req5.Set "Connection".toList "keep-alive".toList)

/-- The report step of `main`: the branch on `*web`. -/
def reportStep (cfg : Config) (env : Env) : List Event :=
  if cfg.web then
    [Event.openBrowser cfg.fileName] ++
    (match env.openBrowser with
     | some err => [Event.stdout ("Can't open browser to display report: ".toList ++ err)]
     | none => [])
  else
    [Event.printOpenBrowser cfg.fileName] ++
    (match env.printErr with
     | some err =>
       [Event.stdout ("Can't generate command to display report in browser: ".toList ++ err)]
     | none => []) ++
    [Event.stdout ("Check test results by executing next command:\n ".toList ++
      env.printCommand ++ "\n".toList)]

/-- The heap profile step of `main` and its return.  `deferred` are the
events of the deferred calls, which run only when `main` returns. -/
def heapProfileStep (cfg : Config) (env : Env) (deferred : List Event) : List Event :=
  if cfg.memprofile ≠ [] then
    if env.createMem then [Event.writeHeapProfile] ++ deferred ++ [Event.exit 0]
    else [Event.logFatal, Event.exit 1]
  else deferred ++ [Event.exit 0]

/-- The events of `main` after `run()` has returned. -/
def afterRun (cfg : Config) (env : Env) (deferred : List Event) : List Event :=
  reportStep cfg env ++ heapProfileStep cfg env deferred

/-- The statements of `main` from the call of `applyHeaders` on:
`applyHeaders()`, `req.AppendBodyString(*body)`, `run()` and what follows. -/
def mainFromApplyHeaders (cfg : Config) (env : Env) (deferred : List Event) : List Event :=
  match applyHeaders cfg Request.new with
  | Except.error out => out
  | Except.ok req => [Event.run (req.AppendBodyString cfg.body)] ++ afterRun cfg env deferred

/-- The function `main`, after `flag.Parse()`: all events of the execution. -/
def main (cfg : Config) (env : Env) : List Event :=
  if cfg.args.length < 1 then usageAndExit []
  else if cfg.d < Second * 20 then usageAndExit "Duration cant be less than 20s".toList
  else if cfg.cpuprofile ≠ [] ∧ env.createCpu = false then [Event.logFatal, Event.exit 1]
  else
    let started := if cfg.cpuprofile ≠ [] then [Event.startCPUProfile] else []
    let deferred := if cfg.cpuprofile ≠ [] then [Event.stopCPUProfile] else []
    started ++ mainFromApplyHeaders cfg env deferred

/-! ## Notions used to state the properties -/

/-- The function `strings.Join(segs, sep)` for a one-character separator. -/
def Join (sep : Char) : List Str → Str
  | [] => []
  | [a] => a
  | a :: b :: l => a ++ sep :: Join sep (b :: l)

/-- The text of the header `name: value`. -/
def headerText (p : Str × Str) : Str := p.1 ++ ':' :: ' ' :: p.2

/-- The two groups that `re` captures in the segment `h`, as `applyHeaders`
passes them to `Header.Set`. -/
def captured (h : Str) : Str × Str :=
  ((FindStringSubmatch h).getD 1 [], (FindStringSubmatch h).getD 2 [])

/-- The `Header.Set` calls of the loop of `applyHeaders` when every segment
of `-h` parses: one per segment, in order. -/
def headerPairs (cfg : Config) : List (Str × Str) :=
  if cfg.headers ≠ [] then (Split ';' cfg.headers).map captured else []

/-- The `Header.Set` calls that `applyHeaders` makes after the loop, from the
dedicated flags `-A`, `-disable-compression` and `-k`. -/
def flagHeaders (cfg : Config) : List (Str × Str) :=
  (if cfg.accept ≠ [] then [("Accept".toList, cfg.accept)] else []) ++
  (if !cfg.disableCompression then [("Accept-Encoding".toList, "gzip".toList)] else []) ++
  [("Connection".toList, if cfg.disableKeepAlive then "close".toList else "keep-alive".toList)]

/-- The segment `h` does not parse: `re.FindStringSubmatch(h)` is empty. -/
def Unparseable (h : Str) : Prop := (FindStringSubmatch h).length < 1

instance (h : Str) : Decidable (Unparseable h) := by
  unfold Unparseable
  infer_instance

/-- The invocation has a configuration error: no positional argument, a
duration below 20s, or a non-empty `-h` with a segment that does not parse. -/
def ConfigError (cfg : Config) : Prop :=
  cfg.args = [] ∨ cfg.d < 20 * Second ∨
    (cfg.headers ≠ [] ∧ ∃ h ∈ Split ';' cfg.headers, Unparseable h)

/-- The message of the duration check. -/
def durationMsg : Str := "Duration cant be less than 20s".toList

/-- A `run()` event occurs in the execution. -/
def RunInvoked (out : List Event) : Prop := ∃ r, Event.run r ∈ out

/-- The execution ends inside `usageAndExit`. -/
def ThroughUsageAndExit (out : List Event) : Prop :=
  ∃ pre msg, out = pre ++ usageAndExit msg

/-- The events of a `usageAndExit` that prints the usage text and then the
error message `msg`. -/
def usageWithMessage (msg : Str) : List Event :=
  [Event.usage, Event.stdout "----------------------------\nErr: ".toList,
   Event.stderrf msg, Event.stderrf "\n\n".toList, Event.exit 1]

/-- The execution goes on to `applyHeaders`: from there on `main` does what
`mainFromApplyHeaders` does. -/
def ProceedsToApplyHeaders (cfg : Config) (env : Env) : Prop :=
  main cfg env =
    (if cfg.cpuprofile ≠ [] then [Event.startCPUProfile] else []) ++
      mainFromApplyHeaders cfg env (if cfg.cpuprofile ≠ [] then [Event.stopCPUProfile] else [])

/-! ## Concrete invocations -/

/-- A target URL. -/
def exampleURL : Str := "http://localhost:8080/".toList

/-- An environment in which every file can be created. -/
def envOk : Env := ⟨true, true, none, "open report.html".toList, none⟩

/-- An environment in which the CPU profile file cannot be created. -/
def envCpuFails : Env := ⟨false, true, none, "open report.html".toList, none⟩

/-! ## The acceptance condition in the words of the specification -/

/-- An ASCII letter, a digit, `_` or `-`. -/
def isNameChar (c : Char) : Prop := c.isAlphanum = true ∨ c = '_' ∨ c = '-'

instance (c : Char) : Decidable (isNameChar c) := by
  unfold isNameChar
  infer_instance

/-- The condition on one segment as the specification words it: the segment
starts with one or more name characters, immediately followed by `:`, and
after the colon there is, past a possibly empty run of whitespace, at least
one character that is not a line feed. -/
def SegmentMatches (seg : Str) : Prop :=
  ∃ (name ws : Str) (c : Char) (tail : Str),
    seg = name ++ ':' :: (ws ++ c :: tail) ∧ name ≠ [] ∧ (∀ x ∈ name, isNameChar x) ∧
    (∀ x ∈ ws, isSpace x = true) ∧ c ≠ '\n'

/-! ## The regular expression: lemmas -/
theorem isWordDash_iff (c : Char) : isWordDash c = true ↔ isNameChar c := by
  simp only [isWordDash, isWord, isNameChar, Char.isAlphanum, Char.isAlpha, Char.isUpper,
    Char.isLower, Char.isDigit, Bool.or_eq_true, Bool.and_eq_true, decide_eq_true_eq,
    beq_iff_eq, Char.le_def, ge_iff_le]
  have h0 : '0'.val = 48 := rfl
  have h9 : '9'.val = 57 := rfl
  have hA : 'A'.val = 65 := rfl
  have hZ : 'Z'.val = 90 := rfl
  have ha : 'a'.val = 97 := rfl
  have hz : 'z'.val = 122 := rfl
  rw [h0, h9, hA, hZ, ha, hz]
  tauto

theorem greedy_cons_pos (p : Char → Bool) (k : Str → Option (List Str)) (c : Char) (s : Str)
    (hc : p c = true) :
    greedy p k (c :: s) =
      match greedy p k s with
      | some (m, r) => some (c :: m, r)
      | none => (k (c :: s)).map fun r => ([], r) := by
  rw [greedy, if_pos hc]

theorem greedy_sound (p : Char → Bool) (k : Str → Option (List Str)) :
    ∀ (s m : Str) (r : List Str), greedy p k s = some (m, r) →
      ∃ t, s = m ++ t ∧ (∀ x ∈ m, p x = true) ∧ k t = some r := by
  intro s
  induction s with
  | nil =>
    intro m r h
    simp only [greedy, Option.map_eq_some', Prod.mk.injEq] at h
    obtain ⟨a, ha, rfl, rfl⟩ := h
    exact ⟨[], rfl, by simp, ha⟩
  | cons c s ih =>
    intro m r h
    unfold greedy at h
    by_cases hp : p c = true
    · rw [if_pos hp] at h
      cases hg : greedy p k s with
      | some mr =>
        obtain ⟨m1, r1⟩ := mr
        rw [hg] at h
        simp only [Option.some.injEq, Prod.mk.injEq] at h
        obtain ⟨rfl, rfl⟩ := h
        obtain ⟨t, rfl, hm, hk⟩ := ih m1 r1 hg
        refine ⟨t, rfl, ?_, hk⟩
        intro x hx
        rcases List.mem_cons.1 hx with rfl | hx
        · exact hp
        · exact hm x hx
      | none =>
        rw [hg] at h
        simp only [Option.map_eq_some', Prod.mk.injEq] at h
        obtain ⟨a, ha, rfl, rfl⟩ := h
        exact ⟨c :: s, rfl, by simp, ha⟩
    · rw [if_neg hp] at h
      simp only [Option.map_eq_some', Prod.mk.injEq] at h
      obtain ⟨a, ha, rfl, rfl⟩ := h
      exact ⟨c :: s, rfl, by simp, ha⟩

theorem greedy_stop (p : Char → Bool) (k : Str → Option (List Str)) (s : Str)
    (h : ∀ c u, s = c :: u → p c = false) :
    greedy p k s = (k s).map fun r => ([], r) := by
  cases s with
  | nil => rfl
  | cons c u =>
    have hc := h c u rfl
    simp [greedy, hc]

theorem greedy_run (p : Char → Bool) (k : Str → Option (List Str))
    (hk : ∀ c u, p c = true → k (c :: u) = none) :
    ∀ (m t : Str), (∀ x ∈ m, p x = true) →
      greedy p k (m ++ t) = (greedy p k t).map fun mr => (m ++ mr.1, mr.2) := by
  intro m
  induction m with
  | nil =>
    intro t _
    simp
  | cons c m ih =>
    intro t hm
    have hc : p c = true := hm c (List.mem_cons_self _ _)
    have hm1 : ∀ x ∈ m, p x = true := fun x hx => hm x (List.mem_cons_of_mem _ hx)
    rw [List.cons_append, greedy_cons_pos p k c (m ++ t) hc, ih t hm1]
    cases hg : greedy p k t with
    | some mr => simp
    | none => simp [hk c (m ++ t) hc]

theorem matchAtoms_plus_cons (p : Char → Bool) (rest : List Atom) (c : Char) (s1 : Str) :
    matchAtoms (⟨p, Quant.plus⟩ :: rest) (c :: s1) =
      if p c = true then
        (greedy p (matchAtoms rest) s1).map fun mr => (c :: mr.1) :: mr.2
      else none := by
  simp only [matchAtoms]

theorem matchAtoms_plus_nil (p : Char → Bool) (rest : List Atom) :
    matchAtoms (⟨p, Quant.plus⟩ :: rest) [] = none := by
  simp only [matchAtoms]

theorem matchAtoms_one_cons (p : Char → Bool) (rest : List Atom) (c : Char) (s1 : Str) :
    matchAtoms (⟨p, Quant.one⟩ :: rest) (c :: s1) =
      if p c = true then (matchAtoms rest s1).map fun r => [c] :: r else none := by
  simp only [matchAtoms]

theorem matchAtoms_one_nil (p : Char → Bool) (rest : List Atom) :
    matchAtoms (⟨p, Quant.one⟩ :: rest) [] = none := by
  simp only [matchAtoms]

theorem matchAtoms_star (p : Char → Bool) (rest : List Atom) (s : Str) :
    matchAtoms (⟨p, Quant.star⟩ :: rest) s =
      (greedy p (matchAtoms rest) s).map fun mr => mr.1 :: mr.2 := by
  simp only [matchAtoms]

theorem matchAtoms_nil : matchAtoms [] = fun _ => some [] := by
  funext t
  simp only [matchAtoms]

theorem greedy_const (p : Char → Bool) (r0 : List Str) :
    ∀ s : Str, greedy p (fun _ => some r0) s = some (s.takeWhile p, r0) := by
  intro s
  induction s with
  | nil => rfl
  | cons c s ih =>
    by_cases hc : p c = true
    · rw [greedy_cons_pos p _ c s hc, ih]
      simp [List.takeWhile, hc]
    · simp [greedy, List.takeWhile, hc]

/-- The tail `.+` of the pattern on its own. -/
theorem matchAtoms_dotPlus (c : Char) (u : Str) :
    matchAtoms [⟨isDot, Quant.plus⟩] (c :: u) =
      if isDot c = true then some [c :: u.takeWhile isDot] else none := by
  rw [matchAtoms_plus_cons, matchAtoms_nil, greedy_const]
  by_cases hc : isDot c = true <;> simp [hc]

theorem matchAtoms_dotPlus_nil : matchAtoms [⟨isDot, Quant.plus⟩] [] = none :=
  matchAtoms_plus_nil isDot []

theorem isDot_of_not_isSpace (c : Char) (h : isSpace c = false) : isDot c = true := by
  simp only [isSpace, Bool.or_eq_false_iff, beq_eq_false_iff_ne] at h
  simp [isDot, h.1.1.1.2]

theorem isSpace_lf : isSpace '\n' = true := by decide

theorem isDot_iff (c : Char) : isDot c = true ↔ c ≠ '\n' := by
  simp [isDot]

/-- The part `\s*(.+)` matches exactly when some character is not a line feed. -/
theorem spaceDot_isSome (t : Str) :
    (greedy isSpace (matchAtoms [⟨isDot, Quant.plus⟩]) t).isSome = true ↔ ∃ c ∈ t, c ≠ '\n' := by
  induction t with
  | nil => simp [greedy, matchAtoms_dotPlus_nil]
  | cons c u ih =>
    by_cases hs : isSpace c = true
    · rw [greedy_cons_pos _ _ c u hs]
      cases hg : greedy isSpace (matchAtoms [⟨isDot, Quant.plus⟩]) u with
      | some mr =>
        have : ∃ x ∈ u, x ≠ '\n' := ih.1 (by simp [hg])
        obtain ⟨x, hx, hne⟩ := this
        simp only [Option.isSome_some, true_iff]
        exact ⟨x, List.mem_cons_of_mem _ hx, hne⟩
      | none =>
        have hno : ¬ ∃ x ∈ u, x ≠ '\n' := fun h => by
          have := ih.2 h
          simp [hg] at this
        simp only [matchAtoms_dotPlus]
        by_cases hd : isDot c = true
        · simp only [hd, if_true, Option.map_some', Option.isSome_some, true_iff]
          exact ⟨c, List.mem_cons_self _ _, (isDot_iff c).1 hd⟩
        · simp only [hd, Option.map_none', Option.isSome_none]
          constructor
          · intro h
            cases h
          · rintro ⟨x, hx, hne⟩
            rcases List.mem_cons.1 hx with rfl | hx
            · exact absurd ((isDot_iff x).2 hne) hd
            · exact absurd ⟨x, hx, hne⟩ hno
    · have hs1 : isSpace c = false := by simpa using hs
      have hd := isDot_of_not_isSpace c hs1
      rw [greedy_stop _ _ (c :: u) (by intro a b hab; cases hab; exact hs1), matchAtoms_dotPlus]
      simp only [hd, if_true, Option.map_some', Option.isSome_some, true_iff]
      exact ⟨c, List.mem_cons_self _ _, (isDot_iff c).1 hd⟩

/-- The part `\s*(.+)` on whitespace followed by a value that starts with a
character outside `\s`: the whitespace is skipped and the value is captured up
to its first line feed. -/
theorem spaceDot_value (ws : Str) (c : Char) (u : Str)
    (hws : ∀ x ∈ ws, isSpace x = true) (hc : isSpace c = false) :
    greedy isSpace (matchAtoms [⟨isDot, Quant.plus⟩]) (ws ++ c :: u)
      = some (ws, [c :: u.takeWhile isDot]) := by
  induction ws with
  | nil =>
    rw [List.nil_append,
      greedy_stop _ _ (c :: u) (by intro a b hab; cases hab; exact hc), matchAtoms_dotPlus]
    simp [isDot_of_not_isSpace c hc]
  | cons w ws ih =>
    have hw : isSpace w = true := hws w (List.mem_cons_self _ _)
    rw [List.cons_append, greedy_cons_pos _ _ w _ hw,
      ih (fun x hx => hws x (List.mem_cons_of_mem _ hx))]

/-- What the rest of the pattern does after the name: the colon is required. -/
theorem matchAtoms_colon (t : Str) :
    matchAtoms [⟨isColon, Quant.one⟩, ⟨isSpace, Quant.star⟩, ⟨isDot, Quant.plus⟩] (':' :: t) =
      (greedy isSpace (matchAtoms [⟨isDot, Quant.plus⟩]) t).map
        fun mr => [':'] :: mr.1 :: mr.2 := by
  have hc : isColon ':' = true := by decide
  rw [matchAtoms_one_cons, if_pos hc, matchAtoms_star, Option.map_map]
  rfl

theorem matchAtoms_colon_none (c : Char) (u : Str) (h : isWordDash c = true) :
    matchAtoms [⟨isColon, Quant.one⟩, ⟨isSpace, Quant.star⟩, ⟨isDot, Quant.plus⟩] (c :: u) =
      none := by
  have hc : isColon c = false := by
    simp only [isColon, beq_eq_false_iff_ne]
    rintro rfl
    exact absurd h (by decide)
  rw [matchAtoms_one_cons]
  simp [hc]

theorem matchAtoms_colon_some (s : Str) (r : List Str)
    (h : matchAtoms [⟨isColon, Quant.one⟩, ⟨isSpace, Quant.star⟩, ⟨isDot, Quant.plus⟩] s =
      some r) : ∃ t, s = ':' :: t := by
  cases s with
  | nil =>
    rw [matchAtoms_one_nil] at h
    cases h
  | cons c u =>
    by_cases hc : isColon c = true
    · have : c = ':' := by simpa [isColon] using hc
      exact ⟨u, by rw [this]⟩
    · rw [matchAtoms_one_cons, if_neg hc] at h
      cases h

/-- The whole pattern on a segment that has a name and a colon. -/
theorem matchAtoms_re (name t : Str) (hne : name ≠ [])
    (hname : ∀ x ∈ name, isWordDash x = true) :
    matchAtoms re (name ++ ':' :: t) =
      (greedy isSpace (matchAtoms [⟨isDot, Quant.plus⟩]) t).map
        fun mr => name :: [':'] :: mr.1 :: mr.2 := by
  cases name with
  | nil => exact absurd rfl hne
  | cons c n =>
    have hc : isWordDash c = true := hname c (List.mem_cons_self _ _)
    have hn : ∀ x ∈ n, isWordDash x = true := fun x hx => hname x (List.mem_cons_of_mem _ hx)
    have hcol : isWordDash ':' = false := by decide
    rw [re, List.cons_append, matchAtoms_plus_cons, if_pos hc]
    rw [greedy_run isWordDash _ (fun a u ha => matchAtoms_colon_none a u ha) n (':' :: t) hn,
      greedy_stop _ _ (':' :: t) (by intro a b hab; cases hab; exact hcol), matchAtoms_colon]
    cases greedy isSpace (matchAtoms [⟨isDot, Quant.plus⟩]) t with
    | none => rfl
    | some mr => simp

/-- A segment that the pattern matches has a name and a colon. -/
theorem matchAtoms_re_some (s : Str) (r : List Str) (h : matchAtoms re s = some r) :
    ∃ name t, s = name ++ ':' :: t ∧ name ≠ [] ∧ ∀ x ∈ name, isWordDash x = true := by
  cases s with
  | nil =>
    rw [re, matchAtoms_plus_nil] at h
    cases h
  | cons c s1 =>
    by_cases hc : isWordDash c = true
    · rw [re, matchAtoms_plus_cons, if_pos hc, Option.map_eq_some'] at h
      obtain ⟨mr, hg, -⟩ := h
      obtain ⟨m, r1⟩ := mr
      obtain ⟨t, rfl, hm, hk⟩ := greedy_sound _ _ s1 m r1 hg
      obtain ⟨t1, rfl⟩ := matchAtoms_colon_some t r1 hk
      refine ⟨c :: m, t1, rfl, by simp, ?_⟩
      intro x hx
      rcases List.mem_cons.1 hx with rfl | hx
      · exact hc
      · exact hm x hx
    · rw [re, matchAtoms_plus_cons, if_neg hc] at h
      cases h

/-! ## `FindStringSubmatch` -/

theorem FindStringSubmatch_of_greedy (name t ws : Str) (r : List Str) (hne : name ≠ [])
    (hname : ∀ x ∈ name, isWordDash x = true)
    (hg : greedy isSpace (matchAtoms [⟨isDot, Quant.plus⟩]) t = some (ws, r)) :
    ∃ g2, r = [g2] ∧
      FindStringSubmatch (name ++ ':' :: t) = [name ++ [':'] ++ ws ++ g2, name, g2] := by
  obtain ⟨t1, -, -, hk⟩ := greedy_sound _ _ t ws r hg
  have hr : ∃ g2, r = [g2] := by
    cases t1 with
    | nil =>
      rw [matchAtoms_dotPlus_nil] at hk
      cases hk
    | cons c u =>
      rw [matchAtoms_dotPlus] at hk
      by_cases hd : isDot c = true
      · rw [if_pos hd] at hk
        exact ⟨c :: u.takeWhile isDot, (Option.some.inj hk).symm⟩
      · rw [if_neg hd] at hk
        cases hk
  obtain ⟨g2, rfl⟩ := hr
  refine ⟨g2, rfl, ?_⟩
  rw [FindStringSubmatch, matchAtoms_re name t hne hname, hg]
  rfl

theorem FindStringSubmatch_of_none (s : Str) (h : matchAtoms re s = none) :
    FindStringSubmatch s = [] := by
  rw [FindStringSubmatch, h]

/-- A line feed free decomposition: some character that is not a line feed
can be reached past a run of whitespace. -/
theorem exists_run_of_mem (t : Str) (h : ∃ c ∈ t, c ≠ '\n') :
    ∃ (ws : Str) (c : Char) (tail : Str),
      t = ws ++ c :: tail ∧ (∀ x ∈ ws, isSpace x = true) ∧ c ≠ '\n' := by
  induction t with
  | nil =>
    obtain ⟨c, hc, -⟩ := h
    cases hc
  | cons a u ih =>
    by_cases ha : a = '\n'
    · have hu : ∃ c ∈ u, c ≠ '\n' := by
        obtain ⟨c, hc, hne⟩ := h
        rcases List.mem_cons.1 hc with rfl | hc
        · exact absurd ha hne
        · exact ⟨c, hc, hne⟩
      obtain ⟨ws, c, tail, rfl, hws, hne⟩ := ih hu
      refine ⟨a :: ws, c, tail, rfl, ?_, hne⟩
      intro x hx
      rcases List.mem_cons.1 hx with rfl | hx
      · rw [ha]
        exact isSpace_lf
      · exact hws x hx
    · exact ⟨[], a, u, rfl, by simp, ha⟩

/-- The pattern `re` accepts exactly the segments that the specification describes. -/
theorem unparseable_iff (h : Str) : Unparseable h ↔ ¬ SegmentMatches h := by
  constructor
  · rintro hu ⟨name, ws, c, tail, rfl, hne, hname, hws, hc⟩
    have hname1 : ∀ x ∈ name, isWordDash x = true := fun x hx => (isWordDash_iff x).2 (hname x hx)
    have hsome : (greedy isSpace (matchAtoms [⟨isDot, Quant.plus⟩]) (ws ++ c :: tail)).isSome
        = true :=
      (spaceDot_isSome _).2 ⟨c, by simp, hc⟩
    obtain ⟨mr, hmr⟩ := Option.isSome_iff_exists.1 hsome
    obtain ⟨m, r⟩ := mr
    obtain ⟨g2, -, hf⟩ := FindStringSubmatch_of_greedy name _ m r hne hname1 hmr
    rw [Unparseable, hf] at hu
    simp at hu
  · intro hns
    by_contra hu
    cases hm : matchAtoms re h with
    | none =>
      apply hu
      rw [Unparseable, FindStringSubmatch_of_none h hm]
      decide
    | some r =>
      obtain ⟨name, t, rfl, hne, hname⟩ := matchAtoms_re_some h r hm
      rw [matchAtoms_re name t hne hname] at hm
      have hsome : (greedy isSpace (matchAtoms [⟨isDot, Quant.plus⟩]) t).isSome = true := by
        cases hg : greedy isSpace (matchAtoms [⟨isDot, Quant.plus⟩]) t with
        | none =>
          rw [hg] at hm
          cases hm
        | some mr => rfl
      obtain ⟨ws, c, tail, rfl, hws, hc⟩ := exists_run_of_mem t ((spaceDot_isSome t).1 hsome)
      exact hns ⟨name, ws, c, tail, rfl, hne, fun x hx => (isWordDash_iff x).1 (hname x hx),
        hws, hc⟩

theorem takeWhile_isDot_of_no_lf (u : Str) (h : '\n' ∉ u) : u.takeWhile isDot = u := by
  rw [List.takeWhile_eq_self_iff]
  intro x hx
  rw [isDot_iff]
  rintro rfl
  exact h hx

/-- On the text `name: value` the pattern captures the name and the value. -/
theorem FindStringSubmatch_headerText (p : Str × Str) (hne : p.1 ≠ [])
    (hname : ∀ x ∈ p.1, isNameChar x) (hlf : '\n' ∉ p.2)
    (hv : ∃ c u, p.2 = c :: u ∧ isSpace c = false) :
    FindStringSubmatch (headerText p) = [headerText p, p.1, p.2] := by
  obtain ⟨c, u, hp2, hc⟩ := hv
  have hname1 : ∀ x ∈ p.1, isWordDash x = true := fun x hx => (isWordDash_iff x).2 (hname x hx)
  have hu : '\n' ∉ u := fun hx => hlf (by rw [hp2]; exact List.mem_cons_of_mem _ hx)
  have hg : greedy isSpace (matchAtoms [⟨isDot, Quant.plus⟩]) (' ' :: p.2)
      = some ([' '], [p.2]) := by
    have := spaceDot_value [' '] c u (by simp [isSpace]) hc
    rw [takeWhile_isDot_of_no_lf u hu, ← hp2] at this
    exact this
  obtain ⟨g2, hg2, hf⟩ := FindStringSubmatch_of_greedy p.1 _ [' '] [p.2] hne hname1 hg
  have : g2 = p.2 := by
    simp only [List.cons.injEq, and_true] at hg2
    exact hg2.symm
  rw [this] at hf
  rw [headerText, hf]
  simp

theorem captured_headerText (p : Str × Str) (hne : p.1 ≠ [])
    (hname : ∀ x ∈ p.1, isNameChar x) (hlf : '\n' ∉ p.2)
    (hv : ∃ c u, p.2 = c :: u ∧ isSpace c = false) :
    captured (headerText p) = p ∧ ¬ Unparseable (headerText p) := by
  rw [captured, Unparseable, FindStringSubmatch_headerText p hne hname hlf hv]
  simp

/-! ## `strings.Split` -/

theorem Split_ne_nil (sep : Char) (s : Str) : Split sep s ≠ [] := by
  cases s with
  | nil => simp [Split]
  | cons c u =>
    rw [Split]
    by_cases hc : c = sep
    · simp [hc]
    · rw [if_neg hc]
      cases Split sep u <;> simp

theorem Split_of_not_mem (sep : Char) (s : Str) (h : sep ∉ s) : Split sep s = [s] := by
  induction s with
  | nil => rfl
  | cons c u ih =>
    have hc : c ≠ sep := fun e => h (by rw [e]; exact List.mem_cons_self _ _)
    have hu : sep ∉ u := fun hx => h (List.mem_cons_of_mem _ hx)
    rw [Split, if_neg hc, ih hu]

theorem Split_append_sep (sep : Char) (a rest : Str) (h : sep ∉ a) :
    Split sep (a ++ sep :: rest) = a :: Split sep rest := by
  induction a with
  | nil => simp [Split]
  | cons c u ih =>
    have hc : c ≠ sep := fun e => h (by rw [e]; exact List.mem_cons_self _ _)
    have hu : sep ∉ u := fun hx => h (List.mem_cons_of_mem _ hx)
    rw [List.cons_append, Split, if_neg hc, ih hu]

theorem Split_Join (sep : Char) (segs : List Str) (hne : segs ≠ [])
    (h : ∀ s ∈ segs, sep ∉ s) : Split sep (Join sep segs) = segs := by
  induction segs with
  | nil => exact absurd rfl hne
  | cons a l ih =>
    cases l with
    | nil =>
      rw [Join]
      exact Split_of_not_mem sep a (h a (List.mem_cons_self _ _))
    | cons b l1 =>
      rw [Join, Split_append_sep sep a _ (h a (List.mem_cons_self _ _)),
        ih (by simp) (fun x hx => h x (List.mem_cons_of_mem _ hx))]

theorem Join_ne_nil (sep : Char) (segs : List Str) (hne : segs ≠ [])
    (h : ∀ s ∈ segs, s ≠ []) : Join sep segs ≠ [] := by
  cases segs with
  | nil => exact absurd rfl hne
  | cons a l =>
    have ha : a ≠ [] := h a (List.mem_cons_self _ _)
    cases l with
    | nil => simpa [Join] using ha
    | cons b l1 => simp [Join, ha]

/-! ## The loop of `applyHeaders` -/

theorem applyHeaderList_ok (segs : List Str) :
    ∀ req : Request, (∀ s ∈ segs, ¬ Unparseable s) →
      applyHeaderList req segs = Except.ok { req with header := req.header ++ segs.map captured } := by
  induction segs with
  | nil =>
    intro req _
    simp [applyHeaderList]
  | cons h hs ih =>
    intro req hall
    have hh : ¬ (FindStringSubmatch h).length < 1 := hall h (List.mem_cons_self _ _)
    rw [applyHeaderList]
    simp only [hh, if_false]
    rw [ih _ (fun x hx => hall x (List.mem_cons_of_mem _ hx))]
    simp [Request.Set, captured]

theorem applyHeaderList_error (pre : List Str) (h : Str) (post : List Str) :
    ∀ req : Request, (∀ s ∈ pre, ¬ Unparseable s) → Unparseable h →
      applyHeaderList req (pre ++ h :: post) = Except.error (usageAndExit (parseErrorMsg h)) := by
  induction pre with
  | nil =>
    intro req _ hu
    have hh : (FindStringSubmatch h).length < 1 := hu
    rw [List.nil_append, applyHeaderList]
    simp only [hh, if_true]
  | cons a pre ih =>
    intro req hall hu
    have ha : ¬ (FindStringSubmatch a).length < 1 := hall a (List.mem_cons_self _ _)
    rw [List.cons_append, applyHeaderList]
    simp only [ha, if_false]
    exact ih _ (fun x hx => hall x (List.mem_cons_of_mem _ hx)) hu

theorem first_unparseable (segs : List Str) (h : ∃ s ∈ segs, Unparseable s) :
    ∃ pre b post, segs = pre ++ b :: post ∧ (∀ s ∈ pre, ¬ Unparseable s) ∧ Unparseable b := by
  induction segs with
  | nil =>
    obtain ⟨s, hs, -⟩ := h
    cases hs
  | cons a l ih =>
    by_cases ha : Unparseable a
    · exact ⟨[], a, l, rfl, by simp, ha⟩
    · have hl : ∃ s ∈ l, Unparseable s := by
        obtain ⟨s, hs, hu⟩ := h
        rcases List.mem_cons.1 hs with rfl | hs
        · exact absurd hu ha
        · exact ⟨s, hs, hu⟩
      obtain ⟨pre, b, post, rfl, hpre, hb⟩ := ih hl
      refine ⟨a :: pre, b, post, rfl, ?_, hb⟩
      intro x hx
      rcases List.mem_cons.1 hx with rfl | hx
      · exact ha
      · exact hpre x hx

/-! ## `applyHeaders` -/

/-- The three outcomes of `applyHeaders`, by its input. -/
theorem applyHeaders_error (cfg : Config) (req : Request) (pre : List Str) (h : Str)
    (post : List Str) (hne : cfg.headers ≠ []) (hs : Split ';' cfg.headers = pre ++ h :: post)
    (hpre : ∀ s ∈ pre, ¬ Unparseable s) (hh : Unparseable h) :
    applyHeaders cfg req = Except.error (usageAndExit (parseErrorMsg h)) := by
  rw [applyHeaders]
  simp only [hne, ne_eq, not_false_eq_true, if_true, hs]
  rw [applyHeaderList_error pre h post _ hpre hh]

theorem applyHeaders_loop_ok (cfg : Config) (req : Request)
    (hh : cfg.headers = [] ∨ ∀ s ∈ Split ';' cfg.headers, ¬ Unparseable s) :
    (if cfg.headers ≠ [] then
        applyHeaderList (req.SetContentType cfg.contentType) (Split ';' cfg.headers)
      else Except.ok (req.SetContentType cfg.contentType)) =
      Except.ok { req with
        header := req.header ++ [("Content-Type".toList, cfg.contentType)] ++ headerPairs cfg } := by
  by_cases hne : cfg.headers = []
  · simp [hne, headerPairs, Request.SetContentType, Request.Set]
  · have hall : ∀ s ∈ Split ';' cfg.headers, ¬ Unparseable s := hh.resolve_left hne
    rw [if_pos hne, applyHeaderList_ok _ _ hall]
    simp [hne, headerPairs, Request.SetContentType, Request.Set]

theorem applyHeaders_panic (cfg : Config) (req : Request)
    (hh : cfg.headers = [] ∨ ∀ s ∈ Split ';' cfg.headers, ¬ Unparseable s)
    (hargs : cfg.args = []) :
    applyHeaders cfg req = Except.error [Event.goPanic, Event.exit 2] := by
  rw [applyHeaders]
  simp only [applyHeaders_loop_ok cfg req hh, hargs]

theorem applyHeaders_ok (cfg : Config) (req : Request)
    (hh : cfg.headers = [] ∨ ∀ s ∈ Split ';' cfg.headers, ¬ Unparseable s)
    (hargs : cfg.args ≠ []) :
    ∃ r, applyHeaders cfg req = Except.ok r ∧
      r.header = req.header ++ [("Content-Type".toList, cfg.contentType)] ++ headerPairs cfg
        ++ flagHeaders cfg := by
  obtain ⟨url, rest, hargs1⟩ := List.exists_cons_of_ne_nil hargs
  rw [applyHeaders]
  simp only [applyHeaders_loop_ok cfg req hh, hargs1]
  by_cases ha : cfg.accept = [] <;> by_cases hc : cfg.disableCompression = true <;>
    by_cases hk : cfg.disableKeepAlive = true <;>
    simp [ha, hc, hk, flagHeaders, Request.Set, Request.SetMethod, Request.SetRequestURI]

/-- Every input of `applyHeaders` falls under one of the three outcomes. -/
theorem applyHeaders_cases (cfg : Config) :
    (cfg.headers ≠ [] ∧ ∃ pre h post, Split ';' cfg.headers = pre ++ h :: post ∧
      (∀ s ∈ pre, ¬ Unparseable s) ∧ Unparseable h) ∨
    (cfg.headers = [] ∨ ∀ s ∈ Split ';' cfg.headers, ¬ Unparseable s) := by
  by_cases hne : cfg.headers = []
  · exact Or.inr (Or.inl hne)
  · by_cases hall : ∀ s ∈ Split ';' cfg.headers, ¬ Unparseable s
    · exact Or.inr (Or.inr hall)
    · have hex : ∃ s ∈ Split ';' cfg.headers, Unparseable s := by
        by_contra hcon
        exact hall fun s hs hu => hcon ⟨s, hs, hu⟩
      exact Or.inl ⟨hne, first_unparseable _ hex⟩

/-- An accepted input: the arguments are there, every segment parses, and the
header calls are the content type, the pairs of `-h`, and the dedicated flags. -/
theorem applyHeaders_of_ok (cfg : Config) (req r : Request)
    (h : applyHeaders cfg req = Except.ok r) :
    cfg.args ≠ [] ∧ (cfg.headers = [] ∨ ∀ s ∈ Split ';' cfg.headers, ¬ Unparseable s) ∧
      r.header = req.header ++ [("Content-Type".toList, cfg.contentType)] ++ headerPairs cfg
        ++ flagHeaders cfg := by
  rcases applyHeaders_cases cfg with ⟨hne, pre, b, post, hs, hpre, hb⟩ | hh
  · rw [applyHeaders_error cfg req pre b post hne hs hpre hb] at h
    cases h
  · by_cases hargs : cfg.args = []
    · rw [applyHeaders_panic cfg req hh hargs] at h
      cases h
    · obtain ⟨r1, h1, hr1⟩ := applyHeaders_ok cfg req hh hargs
      rw [h1] at h
      cases h
      exact ⟨hargs, hh, hr1⟩

/-! ## The header list as a map -/

theorem Peek_append (canon : Str → Str) (k : Str) (l1 l2 : List (Str × Str)) :
    Header.Peek canon k (l1 ++ l2) = (Header.Peek canon k l2).or (Header.Peek canon k l1) := by
  simp only [Header.Peek, List.reverse_append, List.find?_append]
  cases List.find? (fun e => decide (canon e.1 = canon k)) l2.reverse <;> simp

theorem Peek_eq_none (canon : Str → Str) (k : Str) (l : List (Str × Str))
    (h : ∀ e ∈ l, canon e.1 ≠ canon k) : Header.Peek canon k l = none := by
  simp only [Header.Peek, Option.map_eq_none', List.find?_eq_none, List.mem_reverse,
    decide_eq_true_eq]
  exact h

theorem Peek_append_of_not_mem (canon : Str → Str) (k : Str) (l1 l2 : List (Str × Str))
    (h : ∀ e ∈ l2, canon e.1 ≠ canon k) :
    Header.Peek canon k (l1 ++ l2) = Header.Peek canon k l1 := by
  rw [Peek_append, Peek_eq_none canon k l2 h]
  rfl

theorem Peek_append_singleton (canon : Str → Str) (k : Str) (l : List (Str × Str)) (e : Str × Str)
    (h : canon e.1 = canon k) : Header.Peek canon k (l ++ [e]) = some e.2 := by
  rw [Peek_append]
  simp [Header.Peek, h]

theorem Peek_flagHeaders_connection (canon : Str → Str) (cfg : Config) (l : List (Str × Str)) :
    Header.Peek canon "Connection".toList (l ++ flagHeaders cfg) =
      some (if cfg.disableKeepAlive then "close".toList else "keep-alive".toList) := by
  rw [flagHeaders, ← List.append_assoc, ← List.append_assoc]
  exact Peek_append_singleton canon _ _ _ rfl

/-! ## `usageAndExit` and `main` -/

theorem usageAndExit_nil : usageAndExit [] = [Event.usage, Event.exit 1] := by
  simp [usageAndExit]

theorem usageAndExit_of_ne_nil (msg : Str) (h : msg ≠ []) :
    usageAndExit msg = usageWithMessage msg := by
  simp [usageAndExit, usageWithMessage, h]

theorem parseErrorMsg_ne_nil (h : Str) : parseErrorMsg h ≠ [] := by
  simp [parseErrorMsg]

theorem durationMsg_ne_nil : durationMsg ≠ [] := by
  simp [durationMsg]

theorem run_not_mem_usageAndExit (msg : Str) (r : Request) : Event.run r ∉ usageAndExit msg := by
  by_cases h : msg = []
  · simp [usageAndExit, h]
  · simp [usageAndExit, h]

theorem getLast_usageAndExit (msg : Str) : (usageAndExit msg).getLast? = some (Event.exit 1) := by
  by_cases h : msg = []
  · simp [usageAndExit, h]
  · simp [usageAndExit, h]

theorem usage_mem_usageAndExit (msg : Str) : Event.usage ∈ usageAndExit msg := by
  simp [usageAndExit]

theorem main_no_args (cfg : Config) (env : Env) (h : cfg.args = []) :
    main cfg env = usageAndExit [] := by
  simp [main, h]

theorem main_short (cfg : Config) (env : Env) (h : cfg.args ≠ []) (hd : cfg.d < 20 * Second) :
    main cfg env = usageAndExit durationMsg := by
  have hl : ¬ cfg.args.length < 1 := by
    cases hargs : cfg.args with
    | nil => exact absurd hargs h
    | cons a l => simp
  have hd1 : cfg.d < Second * 20 := by rwa [mul_comm]
  simp [main, hl, hd1, durationMsg]

theorem main_cpu_fail (cfg : Config) (env : Env) (h : cfg.args ≠ []) (hd : 20 * Second ≤ cfg.d)
    (hp : cfg.cpuprofile ≠ []) (hc : env.createCpu = false) :
    main cfg env = [Event.logFatal, Event.exit 1] := by
  have hl : ¬ cfg.args.length < 1 := by
    cases hargs : cfg.args with
    | nil => exact absurd hargs h
    | cons a l => simp
  have hd1 : ¬ cfg.d < Second * 20 := by
    rw [mul_comm]
    exact not_lt.2 hd
  simp [main, hl, hd1, hp, hc]

theorem main_proceeds (cfg : Config) (env : Env) (h : cfg.args ≠ []) (hd : 20 * Second ≤ cfg.d)
    (hp : cfg.cpuprofile = [] ∨ env.createCpu = true) :
    main cfg env =
      (if cfg.cpuprofile ≠ [] then [Event.startCPUProfile] else []) ++
        mainFromApplyHeaders cfg env
          (if cfg.cpuprofile ≠ [] then [Event.stopCPUProfile] else []) := by
  have hl : ¬ cfg.args.length < 1 := by
    cases hargs : cfg.args with
    | nil => exact absurd hargs h
    | cons a l => simp
  have hd1 : ¬ cfg.d < Second * 20 := by
    rw [mul_comm]
    exact not_lt.2 hd
  have hp1 : ¬ (cfg.cpuprofile ≠ [] ∧ env.createCpu = false) := by
    rintro ⟨h1, h2⟩
    rcases hp with hp | hp
    · exact h1 hp
    · rw [hp] at h2
      cases h2
  rw [main, if_neg hl, if_neg hd1, if_neg hp1]

theorem usageAndExit_injective (m1 m2 : Str) (h : usageAndExit m1 = usageAndExit m2) :
    m1 = m2 := by
  by_cases h1 : m1 = [] <;> by_cases h2 : m2 = []
  · rw [h1, h2]
  · rw [h1, usageAndExit_nil, usageAndExit_of_ne_nil m2 h2] at h
    simp [usageWithMessage] at h
  · rw [h2, usageAndExit_nil, usageAndExit_of_ne_nil m1 h1] at h
    simp [usageWithMessage] at h
  · rw [usageAndExit_of_ne_nil m1 h1, usageAndExit_of_ne_nil m2 h2] at h
    simpa [usageWithMessage] using h

theorem panic_ne_usageAndExit (msg : Str) :
    [Event.goPanic, Event.exit 2] ≠ usageAndExit msg := by
  intro h
  have := usage_mem_usageAndExit msg
  rw [← h] at this
  simp at this

/-- The error outcomes of `applyHeaders`. -/
theorem applyHeaders_of_error (cfg : Config) (req : Request) (out : List Event)
    (h : applyHeaders cfg req = Except.error out) :
    (out = [Event.goPanic, Event.exit 2] ∧ cfg.args = []) ∨
    (cfg.headers ≠ [] ∧ ∃ pre b post, Split ';' cfg.headers = pre ++ b :: post ∧
      (∀ s ∈ pre, ¬ Unparseable s) ∧ Unparseable b ∧ out = usageAndExit (parseErrorMsg b)) := by
  rcases applyHeaders_cases cfg with ⟨hne, pre, b, post, hs, hpre, hb⟩ | hh
  · rw [applyHeaders_error cfg req pre b post hne hs hpre hb] at h
    cases h
    exact Or.inr ⟨hne, pre, b, post, hs, hpre, hb, rfl⟩
  · by_cases hargs : cfg.args = []
    · rw [applyHeaders_panic cfg req hh hargs] at h
      cases h
      exact Or.inl ⟨rfl, hargs⟩
    · obtain ⟨r1, h1, -⟩ := applyHeaders_ok cfg req hh hargs
      rw [h1] at h
      cases h

/-! ## The properties -/

/-- C8: `applyHeaders` accepts `-h` (does not call `usageAndExit`) if and only
if `-h` is empty or every segment obtained by splitting it on `;` matches the
pattern as the specification describes it; and when it calls `usageAndExit`,
the segment reported is the first one that does not match: the message is
`could not parse the provided input; input = ` followed by that segment, and
the process ends with the usage text, the line `Err: `, that message handed
to `fmt.Fprintf`, and exit status 1 (a message without `%` is written as it is). -/
theorem applyHeaders_accepts_iff (cfg : Config) (req : Request) :
    ((∀ msg, applyHeaders cfg req ≠ Except.error (usageAndExit msg)) ↔
      (cfg.headers = [] ∨ ∀ seg ∈ Split ';' cfg.headers, SegmentMatches seg)) ∧
    (∀ msg, applyHeaders cfg req = Except.error (usageAndExit msg) →
      ∃ pre h post, Split ';' cfg.headers = pre ++ h :: post ∧
        (∀ seg ∈ pre, SegmentMatches seg) ∧ ¬ SegmentMatches h ∧
        msg = "could not parse the provided input; input = ".toList ++ h ∧
        applyHeaders cfg req = Except.error
          [Event.usage, Event.stdout "----------------------------\nErr: ".toList,
           Event.stderrf ("could not parse the provided input; input = ".toList ++ h),
           Event.stderrf "\n\n".toList, Event.exit 1] ∧
        ('%' ∉ h →
          Fprintf ("could not parse the provided input; input = ".toList ++ h) =
            some ("could not parse the provided input; input = ".toList ++ h))) := by
  have key : ∀ msg, applyHeaders cfg req = Except.error (usageAndExit msg) →
      cfg.headers ≠ [] ∧ ∃ pre h post, Split ';' cfg.headers = pre ++ h :: post ∧
        (∀ seg ∈ pre, SegmentMatches seg) ∧ ¬ SegmentMatches h ∧ msg = parseErrorMsg h := by
    intro msg hmsg
    rcases applyHeaders_of_error cfg req _ hmsg with ⟨hp, -⟩ | ⟨hne, pre, b, post, hs, hpre, hb, ho⟩
    · exact absurd hp.symm (panic_ne_usageAndExit msg)
    · refine ⟨hne, pre, b, post, hs, ?_, (unparseable_iff b).1 hb, usageAndExit_injective _ _ ho⟩
      intro seg hseg
      by_contra hn
      exact hpre seg hseg ((unparseable_iff seg).2 hn)
  refine ⟨⟨?_, ?_⟩, ?_⟩
  · intro hacc
    rcases applyHeaders_cases cfg with ⟨hne, pre, b, post, hs, hpre, hb⟩ | hh
    · exact absurd (applyHeaders_error cfg req pre b post hne hs hpre hb) (hacc _)
    · rcases hh with hh | hh
      · exact Or.inl hh
      · refine Or.inr fun seg hseg => ?_
        by_contra hn
        exact hh seg hseg ((unparseable_iff seg).2 hn)
  · intro hok msg hmsg
    obtain ⟨hne, pre, b, post, hs, -, hb, -⟩ := key msg hmsg
    rcases hok with hok | hok
    · exact hne hok
    · exact hb (hok b (by rw [hs]; simp))
  · intro msg hmsg
    obtain ⟨-, pre, h, post, hs, hpre, hh, hm⟩ := key msg hmsg
    refine ⟨pre, h, post, hs, hpre, hh, ?_, ?_, ?_⟩
    · rw [hm]
      rfl
    · rw [hmsg, hm, usageAndExit_of_ne_nil _ (parseErrorMsg_ne_nil h)]
      rfl
    · intro hp
      have hlit : '%' ∉ "could not parse the provided input; input = ".toList := by decide
      have hno : '%' ∉ "could not parse the provided input; input = ".toList ++ h := by
        intro hmem
        rcases List.mem_append.1 hmem with h1 | h1
        · exact hlit h1
        · exact hp h1
      rw [Fprintf, if_neg hno]

/-- An instance of C8: in `X-A: 1;bad;:` the segment `bad` is the one reported. -/
theorem applyHeaders_accepts_iff_witness :
    ∃ pre h post,
      Split ';' "X-A: 1;bad;:".toList = pre ++ h :: post ∧
        (∀ seg ∈ pre, SegmentMatches seg) ∧ ¬ SegmentMatches h ∧
        "could not parse the provided input; input = bad".toList =
          "could not parse the provided input; input = ".toList ++ h ∧
        applyHeaders { defaultConfig [exampleURL] with headers := "X-A: 1;bad;:".toList }
            Request.new =
          Except.error
            [Event.usage, Event.stdout "----------------------------\nErr: ".toList,
             Event.stderrf ("could not parse the provided input; input = ".toList ++ h),
             Event.stderrf "\n\n".toList, Event.exit 1] ∧
        ('%' ∉ h →
          Fprintf ("could not parse the provided input; input = ".toList ++ h) =
            some ("could not parse the provided input; input = ".toList ++ h)) :=
  (applyHeaders_accepts_iff
    { defaultConfig [exampleURL] with headers := "X-A: 1;bad;:".toList } Request.new).2
    "could not parse the provided input; input = bad".toList rfl

/-- C6: the `-k` flag alone decides the keep-alive policy: whenever
`applyHeaders` accepts the configuration, whatever `-h` holds, the
`Connection` header of the request is `close` when `-k` is true and
`keep-alive` when it is false. -/
theorem connection_header_from_k (canon : Str → Str) (cfg : Config) (req r : Request)
    (h : applyHeaders cfg req = Except.ok r) :
    Header.Peek canon "Connection".toList r.header =
      some (if cfg.disableKeepAlive then "close".toList else "keep-alive".toList) := by
  obtain ⟨-, -, hr⟩ := applyHeaders_of_ok cfg req r h
  rw [hr]
  exact Peek_flagHeaders_connection canon cfg _

/-- An instance of C6: `-k` with `-h "Connection: upgrade"` gives `close`. -/
theorem connection_header_from_k_witness :
    Header.Peek id "Connection".toList
        [("Content-Type".toList, "text/html".toList), ("Connection".toList, "upgrade".toList),
         ("Accept-Encoding".toList, "gzip".toList), ("Connection".toList, "close".toList)] =
      some "close".toList :=
  connection_header_from_k id
    { defaultConfig [exampleURL] with
      headers := "Connection: upgrade".toList, disableKeepAlive := true }
    Request.new
    ⟨[("Content-Type".toList, "text/html".toList), ("Connection".toList, "upgrade".toList),
      ("Accept-Encoding".toList, "gzip".toList), ("Connection".toList, "close".toList)],
     "GET".toList, exampleURL, []⟩
    rfl

theorem not_isNameChar_semicolon : ¬ isNameChar ';' := by decide

theorem semicolon_not_mem_headerText (p : Str × Str) (hname : ∀ x ∈ p.1, isNameChar x)
    (hv : ';' ∉ p.2) : ';' ∉ headerText p := by
  intro hmem
  rw [headerText, List.mem_append, List.mem_cons, List.mem_cons] at hmem
  rcases hmem with h | h | h | h
  · exact not_isNameChar_semicolon (hname _ h)
  · exact absurd h (by decide)
  · exact absurd h (by decide)
  · exact hv h

/-- The pairs that the loop of `applyHeaders` sets when `-h` is the join of
well-formed `name: value` texts are those pairs. -/
theorem headerPairs_of_join (cfg : Config) (pairs : List (Str × Str)) (hne : pairs ≠ [])
    (hname : ∀ p ∈ pairs, p.1 ≠ [] ∧ ∀ x ∈ p.1, isNameChar x)
    (hval : ∀ p ∈ pairs, p.2 ≠ [] ∧ ';' ∉ p.2 ∧ '\n' ∉ p.2 ∧
      ∀ c u, p.2 = c :: u → isSpace c = false)
    (hh : cfg.headers = Join ';' (pairs.map headerText)) :
    headerPairs cfg = pairs ∧ ∀ s ∈ Split ';' cfg.headers, ¬ Unparseable s := by
  have hstart : ∀ p ∈ pairs, ∃ c u, p.2 = c :: u ∧ isSpace c = false := by
    intro p hp
    obtain ⟨c, u, hcu⟩ := List.exists_cons_of_ne_nil (hval p hp).1
    exact ⟨c, u, hcu, (hval p hp).2.2.2 c u hcu⟩
  have hsplit : Split ';' cfg.headers = pairs.map headerText := by
    rw [hh]
    apply Split_Join
    · simpa using hne
    · intro s hs
      obtain ⟨p, hp, rfl⟩ := List.mem_map.1 hs
      exact semicolon_not_mem_headerText p (hname p hp).2 (hval p hp).2.1
  have hnonempty : cfg.headers ≠ [] := by
    rw [hh]
    apply Join_ne_nil
    · simpa using hne
    · intro s hs
      obtain ⟨p, -, rfl⟩ := List.mem_map.1 hs
      simp [headerText]
  constructor
  · rw [headerPairs, if_pos hnonempty, hsplit, List.map_map]
    conv_rhs => rw [← List.map_id pairs]
    apply List.map_congr_left
    intro p hp
    exact (captured_headerText p (hname p hp).1 (hname p hp).2 (hval p hp).2.2.1
      (hstart p hp)).1
  · intro s hs
    rw [hsplit] at hs
    obtain ⟨p, hp, rfl⟩ := List.mem_map.1 hs
    exact (captured_headerText p (hname p hp).1 (hname p hp).2 (hval p hp).2.2.1
      (hstart p hp)).2

/-- C3: when `-h` is the join by `;` of the texts `name: value` of a non-empty
list of pairs (names non-empty, of ASCII letters, digits, `_` or `-`; values
non-empty, without `;` and line feed, not starting with whitespace),
`applyHeaders` does not exit and performs `Header.Set(name, value)` for each
pair in list order, between the content type and the dedicated flags; so, in
the last-write-wins reading, a name that no later pair and no dedicated flag
sets again maps to the value given for it. -/
theorem applyHeaders_sets_pairs (canon : Str → Str) (cfg : Config) (req : Request)
    (pairs : List (Str × Str)) (hne : pairs ≠ [])
    (hname : ∀ p ∈ pairs, p.1 ≠ [] ∧ ∀ x ∈ p.1, isNameChar x)
    (hval : ∀ p ∈ pairs, p.2 ≠ [] ∧ ';' ∉ p.2 ∧ '\n' ∉ p.2 ∧
      ∀ c u, p.2 = c :: u → isSpace c = false)
    (hh : cfg.headers = Join ';' (pairs.map headerText))
    (hargs : cfg.args ≠ []) :
    ∃ r, applyHeaders cfg req = Except.ok r ∧
      r.header = req.header ++ [("Content-Type".toList, cfg.contentType)] ++ pairs
        ++ flagHeaders cfg ∧
      ∀ pre p post, pairs = pre ++ p :: post →
        (∀ e ∈ post, canon e.1 ≠ canon p.1) →
        (∀ e ∈ flagHeaders cfg, canon e.1 ≠ canon p.1) →
        Header.Peek canon p.1 r.header = some p.2 := by
  obtain ⟨hpairs, hall⟩ := headerPairs_of_join cfg pairs hne hname hval hh
  obtain ⟨r, hr, hhdr⟩ := applyHeaders_ok cfg req (Or.inr hall) hargs
  rw [hpairs] at hhdr
  refine ⟨r, hr, hhdr, ?_⟩
  intro pre p post hsplit hpost hflags
  rw [hhdr, Peek_append_of_not_mem canon p.1 _ _ hflags, hsplit]
  have hre : req.header ++ [("Content-Type".toList, cfg.contentType)] ++ (pre ++ p :: post) =
      (req.header ++ [("Content-Type".toList, cfg.contentType)] ++ pre ++ [p]) ++ post := by
    simp
  rw [hre, Peek_append_of_not_mem canon p.1 _ _ hpost]
  exact Peek_append_singleton canon p.1 _ p rfl

/-- An instance of C3: `-h "X-Token: abc;Accept: text/plain;X-Token: x y"`
with `-A "*/*"`; the second `X-Token` is the value kept. -/
theorem applyHeaders_sets_pairs_witness :
    ∃ r, applyHeaders
        { defaultConfig [exampleURL] with
          headers := "X-Token: abc;Accept: text/plain;X-Token: x y".toList,
          accept := "*/*".toList } Request.new = Except.ok r ∧
      r.header = Request.new.header ++ [("Content-Type".toList, "text/html".toList)] ++
        [("X-Token".toList, "abc".toList), ("Accept".toList, "text/plain".toList),
         ("X-Token".toList, "x y".toList)] ++
        [("Accept".toList, "*/*".toList), ("Accept-Encoding".toList, "gzip".toList),
         ("Connection".toList, "keep-alive".toList)] ∧
      ∀ pre p post,
        [("X-Token".toList, "abc".toList), ("Accept".toList, "text/plain".toList),
         ("X-Token".toList, "x y".toList)] = pre ++ p :: post →
        (∀ e ∈ post, id e.1 ≠ id p.1) →
        (∀ e ∈ [("Accept".toList, "*/*".toList), ("Accept-Encoding".toList, "gzip".toList),
                ("Connection".toList, "keep-alive".toList)], id e.1 ≠ id p.1) →
        Header.Peek id p.1 r.header = some p.2 :=
  applyHeaders_sets_pairs id
    { defaultConfig [exampleURL] with
      headers := "X-Token: abc;Accept: text/plain;X-Token: x y".toList,
      accept := "*/*".toList }
    Request.new
    [("X-Token".toList, "abc".toList), ("Accept".toList, "text/plain".toList),
     ("X-Token".toList, "x y".toList)]
    (by decide) (by decide)
    (by
      intro p hp
      simp only [List.mem_cons, List.mem_singleton, List.not_mem_nil, or_false] at hp
      rcases hp with rfl | rfl | rfl <;>
        refine ⟨by decide, by decide, by decide, ?_⟩ <;>
        intro c u hcu <;> cases hcu <;> decide)
    rfl (by decide)

/-- C7, refuted as stated: with `-h "Content-Type: application/json"` and no
`-T`, `applyHeaders` accepts and the `Content-Type` header is
`application/json`, not the value `text/html` of `-T`. -/
theorem contentType_overridden_by_h :
    applyHeaders
        { defaultConfig [exampleURL] with headers := "Content-Type: application/json".toList }
        Request.new =
      Except.ok
        ⟨[("Content-Type".toList, "text/html".toList),
          ("Content-Type".toList, "application/json".toList),
          ("Accept-Encoding".toList, "gzip".toList),
          ("Connection".toList, "keep-alive".toList)],
         "GET".toList, exampleURL, []⟩ ∧
    Header.Peek id "Content-Type".toList
        [("Content-Type".toList, "text/html".toList),
         ("Content-Type".toList, "application/json".toList),
         ("Accept-Encoding".toList, "gzip".toList),
         ("Connection".toList, "keep-alive".toList)] = some "application/json".toList ∧
    (defaultConfig [exampleURL]).contentType = "text/html".toList ∧
    "application/json".toList ≠ "text/html".toList :=
  ⟨rfl, by decide, rfl, by decide⟩

/-- C7, amended: whenever `applyHeaders` accepts the configuration, the `Content-Type` header is the value of the last `-h` segment
named `Content-Type` when there is one, and the value of `-T` otherwise
(names compared as the header implementation does, which keeps `Accept`,
`Accept-Encoding` and `Connection` apart from `Content-Type`). -/
theorem contentType_header (canon : Str → Str) (cfg : Config) (req r : Request)
    (hsep : canon "Accept".toList ≠ canon "Content-Type".toList ∧
      canon "Accept-Encoding".toList ≠ canon "Content-Type".toList ∧
      canon "Connection".toList ≠ canon "Content-Type".toList)
    (h : applyHeaders cfg req = Except.ok r) :
    Header.Peek canon "Content-Type".toList r.header =
      some ((Header.Peek canon "Content-Type".toList (headerPairs cfg)).getD cfg.contentType) := by
  obtain ⟨-, -, hr⟩ := applyHeaders_of_ok cfg req r h
  have hflags : ∀ e ∈ flagHeaders cfg, canon e.1 ≠ canon "Content-Type".toList := by
    intro e he
    simp only [flagHeaders, List.mem_append, List.mem_ite_nil_right, List.mem_singleton] at he
    rcases he with (⟨-, rfl⟩ | ⟨-, rfl⟩) | rfl
    · exact hsep.1
    · exact hsep.2.1
    · exact hsep.2.2
  rw [hr, Peek_append_of_not_mem canon _ _ _ hflags, Peek_append]
  cases hp : Header.Peek canon "Content-Type".toList (headerPairs cfg) with
  | some v => rfl
  | none =>
    simp only [Option.or, Option.getD_none]
    exact Peek_append_singleton canon _ _ _ rfl

/-- An instance of the amended C7: without a `Content-Type` segment in `-h`
the header is the value of `-T`. -/
theorem contentType_header_witness :
    Header.Peek id "Content-Type".toList
        [("Content-Type".toList, "application/xml".toList),
         ("X-A".toList, "1".toList),
         ("Accept-Encoding".toList, "gzip".toList),
         ("Connection".toList, "keep-alive".toList)] =
      some ((Header.Peek id "Content-Type".toList
        (headerPairs { defaultConfig [exampleURL] with
          headers := "X-A: 1".toList, contentType := "application/xml".toList })).getD
        "application/xml".toList) :=
  contentType_header id
    { defaultConfig [exampleURL] with
      headers := "X-A: 1".toList, contentType := "application/xml".toList }
    Request.new
    ⟨[("Content-Type".toList, "application/xml".toList),
      ("X-A".toList, "1".toList),
      ("Accept-Encoding".toList, "gzip".toList),
      ("Connection".toList, "keep-alive".toList)],
     "GET".toList, exampleURL, []⟩
    (by decide) rfl

/-! ### Configuration errors -/

/-- With an unparseable segment and the arguments and duration in order,
`main` ends in `log.Fatal` or in the `usageAndExit` of `applyHeaders`. -/
theorem main_header_error (cfg : Config) (env : Env) (hargs : cfg.args ≠ [])
    (hd : 20 * Second ≤ cfg.d) (hne : cfg.headers ≠ [])
    (hbad : ∃ h ∈ Split ';' cfg.headers, Unparseable h) :
    (cfg.cpuprofile ≠ [] ∧ env.createCpu = false ∧ main cfg env = [Event.logFatal, Event.exit 1]) ∨
    ((cfg.cpuprofile = [] ∨ env.createCpu = true) ∧
      ∃ pre b post, Split ';' cfg.headers = pre ++ b :: post ∧ (∀ s ∈ pre, ¬ Unparseable s) ∧
        Unparseable b ∧
        main cfg env = (if cfg.cpuprofile ≠ [] then [Event.startCPUProfile] else []) ++
          usageAndExit (parseErrorMsg b)) := by
  obtain ⟨pre, b, post, hs, hpre, hb⟩ := first_unparseable _ hbad
  by_cases hp : cfg.cpuprofile ≠ [] ∧ env.createCpu = false
  · exact Or.inl ⟨hp.1, hp.2, main_cpu_fail cfg env hargs hd hp.1 hp.2⟩
  · have hp1 : cfg.cpuprofile = [] ∨ env.createCpu = true := by
      by_cases h1 : cfg.cpuprofile = []
      · exact Or.inl h1
      · right
        cases hc : env.createCpu with
        | true => rfl
        | false => exact absurd ⟨h1, hc⟩ hp
    refine Or.inr ⟨hp1, pre, b, post, hs, hpre, hb, ?_⟩
    rw [main_proceeds cfg env hargs hd hp1, mainFromApplyHeaders,
      applyHeaders_error cfg Request.new pre b post hne hs hpre hb]

/-- The shape of every execution that has a configuration error. -/
theorem main_of_configError (cfg : Config) (env : Env) (h : ConfigError cfg) :
    ((cfg.args ≠ [] ∧ 20 * Second ≤ cfg.d ∧ cfg.cpuprofile ≠ [] ∧ env.createCpu = false) ∧
      main cfg env = [Event.logFatal, Event.exit 1]) ∨
    (¬ (cfg.args ≠ [] ∧ 20 * Second ≤ cfg.d ∧ cfg.cpuprofile ≠ [] ∧ env.createCpu = false) ∧
      ∃ msg, main cfg env = usageAndExit msg ∨
        main cfg env = [Event.startCPUProfile] ++ usageAndExit msg) := by
  by_cases hargs : cfg.args = []
  · exact Or.inr ⟨fun hc => hc.1 hargs, [], Or.inl (main_no_args cfg env hargs)⟩
  · by_cases hd : cfg.d < 20 * Second
    · exact Or.inr ⟨fun hc => absurd hd (not_lt.2 hc.2.1), durationMsg,
        Or.inl (main_short cfg env hargs hd)⟩
    · have hd1 : 20 * Second ≤ cfg.d := not_lt.1 hd
      have hhdr : cfg.headers ≠ [] ∧ ∃ h ∈ Split ';' cfg.headers, Unparseable h := by
        rcases h with h | h | h
        · exact absurd h hargs
        · exact absurd h hd
        · exact h
      rcases main_header_error cfg env hargs hd1 hhdr.1 hhdr.2 with
        ⟨h1, h2, h3⟩ | ⟨h1, pre, b, post, -, -, -, hm⟩
      · exact Or.inl ⟨⟨hargs, hd1, h1, h2⟩, h3⟩
      · refine Or.inr ⟨?_, parseErrorMsg b, ?_⟩
        · rintro ⟨-, -, h2, h3⟩
          rcases h1 with h1 | h1
          · exact h2 h1
          · rw [h1] at h3
            cases h3
        · by_cases hp : cfg.cpuprofile = []
          · left
            simpa [hp] using hm
          · right
            simpa [hp] using hm

/-- C1, refuted as stated: with an unparseable `-h` and a CPU profile file
that cannot be created, `main` ends in `log.Fatal`, not through
`usageAndExit`: the usage text is never printed. -/
theorem configError_ends_in_logFatal :
    ConfigError { defaultConfig [exampleURL] with
      headers := "bad".toList, cpuprofile := "cpu.prof".toList } ∧
    main { defaultConfig [exampleURL] with
      headers := "bad".toList, cpuprofile := "cpu.prof".toList } envCpuFails =
      [Event.logFatal, Event.exit 1] ∧
    ¬ ThroughUsageAndExit (main { defaultConfig [exampleURL] with
      headers := "bad".toList, cpuprofile := "cpu.prof".toList } envCpuFails) := by
  refine ⟨Or.inr (Or.inr ⟨by decide, "bad".toList, by decide, by decide⟩), rfl, ?_⟩
  rintro ⟨pre, msg, h⟩
  have hmem : Event.usage ∈ pre ++ usageAndExit msg :=
    List.mem_append_right _ (usage_mem_usageAndExit msg)
  rw [← h] at hmem
  revert hmem
  decide

/-- C1, amended: every invocation with a configuration error ends with exit
status 1 without invoking `run()` and without opening a report.  It ends
through `usageAndExit`, except when the arguments and the duration are in
order, `-cpuprofile` is set and its file cannot be created: then `log.Fatal`
ends the process before `applyHeaders` looks at `-h`. -/
theorem main_configError (cfg : Config) (env : Env) (h : ConfigError cfg) :
    ¬ RunInvoked (main cfg env) ∧
    (∀ f, Event.openBrowser f ∉ main cfg env ∧ Event.printOpenBrowser f ∉ main cfg env) ∧
    (main cfg env).getLast? = some (Event.exit 1) ∧
    (¬ (cfg.args ≠ [] ∧ 20 * Second ≤ cfg.d ∧ cfg.cpuprofile ≠ [] ∧ env.createCpu = false) →
      ThroughUsageAndExit (main cfg env)) ∧
    ((cfg.args ≠ [] ∧ 20 * Second ≤ cfg.d ∧ cfg.cpuprofile ≠ [] ∧ env.createCpu = false) →
      main cfg env = [Event.logFatal, Event.exit 1]) := by
  have hopen : ∀ msg f, Event.openBrowser f ∉ usageAndExit msg ∧
      Event.printOpenBrowser f ∉ usageAndExit msg := by
    intro msg f
    by_cases hm : msg = [] <;> simp [usageAndExit, hm]
  rcases main_of_configError cfg env h with ⟨hc, hm⟩ | ⟨hc, msg, hm | hm⟩
  · rw [hm]
    refine ⟨?_, ?_, rfl, fun hn => absurd hc hn, fun _ => rfl⟩
    · rintro ⟨r, hr⟩
      simp at hr
    · intro f
      simp
  · rw [hm]
    refine ⟨?_, hopen msg, getLast_usageAndExit msg, fun _ => ⟨[], msg, rfl⟩,
      fun hn => absurd hn hc⟩
    rintro ⟨r, hr⟩
    exact run_not_mem_usageAndExit msg r hr
  · rw [hm]
    refine ⟨?_, ?_, ?_, fun _ => ⟨[Event.startCPUProfile], msg, rfl⟩, fun hn => absurd hn hc⟩
    · rintro ⟨r, hr⟩
      rcases List.mem_append.1 hr with hr | hr
      · simp at hr
      · exact run_not_mem_usageAndExit msg r hr
    · intro f
      have := hopen msg f
      simp [this.1, this.2]
    · rw [List.getLast?_append, getLast_usageAndExit]
      rfl

/-- An instance of the amended C1: `-d 5s` ends through `usageAndExit`
without `run()`. -/
theorem main_configError_witness :
    ConfigError { defaultConfig [exampleURL] with d := 5 * Second } ∧
    ¬ RunInvoked (main { defaultConfig [exampleURL] with d := 5 * Second } envOk) ∧
    (main { defaultConfig [exampleURL] with d := 5 * Second } envOk).getLast? =
      some (Event.exit 1) :=
  have h : ConfigError { defaultConfig [exampleURL] with d := 5 * Second } :=
    Or.inr (Or.inl (by decide))
  ⟨h, (main_configError _ envOk h).1, (main_configError _ envOk h).2.2.1⟩

/-! ### The duration floor -/

theorem durationMsg_ne_parseErrorMsg (h : Str) : durationMsg ≠ parseErrorMsg h := by
  intro e
  have := congrArg List.head? e
  revert this
  simp [durationMsg, parseErrorMsg]

/-- With the arguments in order and a duration of at least 20s, `main` does
not end in the `usageAndExit` of the duration check. -/
theorem main_ne_durationMsg (cfg : Config) (env : Env) (hargs : cfg.args ≠ [])
    (hd : 20 * Second ≤ cfg.d) : main cfg env ≠ usageAndExit durationMsg := by
  intro e
  have hhead : (main cfg env).head? = some Event.usage := by
    rw [e]
    simp [usageAndExit]
  by_cases hp : cfg.cpuprofile ≠ [] ∧ env.createCpu = false
  · rw [main_cpu_fail cfg env hargs hd hp.1 hp.2] at hhead
    simp at hhead
  · have hp1 : cfg.cpuprofile = [] ∨ env.createCpu = true := by
      by_cases h1 : cfg.cpuprofile = []
      · exact Or.inl h1
      · right
        cases hc : env.createCpu with
        | true => rfl
        | false => exact absurd ⟨h1, hc⟩ hp
    have hm := main_proceeds cfg env hargs hd hp1
    by_cases h1 : cfg.cpuprofile = []
    · simp only [h1, ne_eq, not_true_eq_false, if_false, List.nil_append] at hm
      rw [hm, mainFromApplyHeaders] at e
      cases ha : applyHeaders cfg Request.new with
      | error out =>
        rw [ha] at e
        simp only at e
        rcases applyHeaders_of_error cfg Request.new out ha with
          ⟨ho, -⟩ | ⟨-, pre, b, post, -, -, -, ho⟩
        · rw [ho] at e
          exact panic_ne_usageAndExit _ e
        · rw [ho] at e
          exact durationMsg_ne_parseErrorMsg b (usageAndExit_injective _ _ e).symm
      | ok r =>
        rw [ha] at e
        simp only at e
        have := congrArg List.head? e
        simp [usageAndExit] at this
    · rw [hm] at hhead
      simp [h1] at hhead

/-- C2, refuted as stated: with one positional argument and `-d 20s`, when
`-cpuprofile` is set and its file cannot be created, `main` ends in
`log.Fatal` and does not go on to `applyHeaders`. -/
theorem floor_does_not_reach_applyHeaders :
    ({ defaultConfig [exampleURL] with
      d := 20 * Second, cpuprofile := "cpu.prof".toList } : Config).args ≠ [] ∧
    main { defaultConfig [exampleURL] with
      d := 20 * Second, cpuprofile := "cpu.prof".toList } envCpuFails =
      [Event.logFatal, Event.exit 1] ∧
    ¬ ProceedsToApplyHeaders { defaultConfig [exampleURL] with
      d := 20 * Second, cpuprofile := "cpu.prof".toList } envCpuFails := by
  refine ⟨by decide, rfl, ?_⟩
  intro h
  have h1 := congrArg List.head? h
  revert h1
  decide

/-- C2, amended: with at least one positional argument, `main` rejects with
the message `Duration cant be less than 20s` if and only if `d < 20s`, for
every integer `d`; a duration of exactly 20s passes the check, and execution
then goes on to `applyHeaders` unless `-cpuprofile` is set and its file
cannot be created, in which case `log.Fatal` ends the process first. -/
theorem duration_floor (cfg : Config) (env : Env) (hargs : cfg.args ≠ []) :
    (main cfg env = usageAndExit durationMsg ↔ cfg.d < 20 * Second) ∧
    (cfg.d = 20 * Second → main cfg env ≠ usageAndExit durationMsg) ∧
    (20 * Second ≤ cfg.d → (cfg.cpuprofile = [] ∨ env.createCpu = true) →
      ProceedsToApplyHeaders cfg env) ∧
    (20 * Second ≤ cfg.d → cfg.cpuprofile ≠ [] → env.createCpu = false →
      main cfg env = [Event.logFatal, Event.exit 1]) := by
  refine ⟨⟨?_, main_short cfg env hargs⟩, ?_, ?_, ?_⟩
  · intro e
    by_contra hd
    exact main_ne_durationMsg cfg env hargs (not_lt.1 hd) e
  · intro hd
    exact main_ne_durationMsg cfg env hargs (le_of_eq hd.symm)
  · intro hd hp
    exact main_proceeds cfg env hargs hd hp
  · intro hd hp hc
    exact main_cpu_fail cfg env hargs hd hp hc

/-- An instance of the amended C2: `-d 20s` is not rejected and goes on to
`applyHeaders`; one nanosecond less is rejected. -/
theorem duration_floor_witness :
    ProceedsToApplyHeaders { defaultConfig [exampleURL] with d := 20 * Second } envOk ∧
    main { defaultConfig [exampleURL] with d := 20 * Second - 1 } envOk =
      usageAndExit durationMsg :=
  ⟨(duration_floor { defaultConfig [exampleURL] with d := 20 * Second } envOk
      (by decide)).2.2.1 (by decide) (Or.inl rfl),
   (duration_floor { defaultConfig [exampleURL] with d := 20 * Second - 1 } envOk
      (by decide)).1.2 (by decide)⟩

/-! ### Profile files -/

/-- C4, refuted as stated: on an otherwise valid invocation whose CPU profile
file cannot be created, `main` ends in `log.Fatal` and `run()` is not invoked. -/
theorem cpuprofile_failure_skips_run :
    ¬ ConfigError { defaultConfig [exampleURL] with cpuprofile := "cpu.prof".toList } ∧
    main { defaultConfig [exampleURL] with cpuprofile := "cpu.prof".toList } envCpuFails =
      [Event.logFatal, Event.exit 1] ∧
    ¬ RunInvoked
      (main { defaultConfig [exampleURL] with cpuprofile := "cpu.prof".toList } envCpuFails) := by
  refine ⟨?_, rfl, ?_⟩
  · rintro (h | h | ⟨h, -⟩)
    · revert h
      decide
    · revert h
      decide
    · exact h rfl
  · rintro ⟨r, hr⟩
    have : main { defaultConfig [exampleURL] with cpuprofile := "cpu.prof".toList }
        envCpuFails = [Event.logFatal, Event.exit 1] := rfl
    rw [this] at hr
    simp at hr

/-- C4, amended: on an invocation without configuration error, when the CPU
profile file is not requested or is created, `run()` is invoked whether or
not the heap profile file can be created afterwards; when that file is
requested and cannot be created, the execution is exactly: the start of the
CPU profile if requested, `run()` on the request that `applyHeaders` built
with the body appended, the report step (which starts with
`report.OpenBrowser` under `-web` and with `report.PrintOpenBrowser`
otherwise), then `log.Fatal` and exit status 1.  When the CPU profile file is
requested and cannot be created, `main` ends in `log.Fatal` with status 1
before `run()` is invoked. -/
theorem run_and_profile_failures (cfg : Config) (env : Env) (hvalid : ¬ ConfigError cfg) :
    ((cfg.cpuprofile = [] ∨ env.createCpu = true) → RunInvoked (main cfg env)) ∧
    ((cfg.cpuprofile = [] ∨ env.createCpu = true) → cfg.memprofile ≠ [] →
      env.createMem = false →
      ∃ r, applyHeaders cfg Request.new = Except.ok r ∧
        main cfg env =
          (if cfg.cpuprofile ≠ [] then [Event.startCPUProfile] else []) ++
            [Event.run (r.AppendBodyString cfg.body)] ++ reportStep cfg env ++
            [Event.logFatal, Event.exit 1] ∧
        (reportStep cfg env).head? =
          some (if cfg.web then Event.openBrowser cfg.fileName
                else Event.printOpenBrowser cfg.fileName)) ∧
    (cfg.cpuprofile ≠ [] → env.createCpu = false →
      main cfg env = [Event.logFatal, Event.exit 1] ∧ ¬ RunInvoked (main cfg env)) := by
  have hargs : cfg.args ≠ [] := fun h => hvalid (Or.inl h)
  have hd : 20 * Second ≤ cfg.d := not_lt.1 fun h => hvalid (Or.inr (Or.inl h))
  have hh : cfg.headers = [] ∨ ∀ s ∈ Split ';' cfg.headers, ¬ Unparseable s := by
    by_cases hne : cfg.headers = []
    · exact Or.inl hne
    · exact Or.inr fun s hs hu => hvalid (Or.inr (Or.inr ⟨hne, s, hs, hu⟩))
  obtain ⟨r, hr, -⟩ := applyHeaders_ok cfg Request.new hh hargs
  refine ⟨?_, ?_, ?_⟩
  · intro hp
    refine ⟨r.AppendBodyString cfg.body, ?_⟩
    rw [main_proceeds cfg env hargs hd hp, mainFromApplyHeaders, hr]
    simp
  · intro hp hm hc
    refine ⟨r, hr, ?_, ?_⟩
    · rw [main_proceeds cfg env hargs hd hp, mainFromApplyHeaders, hr]
      simp [afterRun, heapProfileStep, hm, hc]
    · by_cases hw : cfg.web = true
      · simp [reportStep, hw]
      · simp [reportStep, hw]
  · intro hp hc
    have hm := main_cpu_fail cfg env hargs hd hp hc
    refine ⟨hm, ?_⟩
    rintro ⟨r1, hr1⟩
    rw [hm] at hr1
    simp at hr1

/-- An instance of the amended C4: the heap profile file cannot be created;
`run()` has been invoked and the report step done before `log.Fatal`. -/
theorem run_and_profile_failures_witness :
    ∃ r, applyHeaders { defaultConfig [exampleURL] with memprofile := "mem.prof".toList }
        Request.new = Except.ok r ∧
      main { defaultConfig [exampleURL] with memprofile := "mem.prof".toList }
          ⟨true, false, none, "open report.html".toList, none⟩ =
        [] ++ [Event.run (r.AppendBodyString [])] ++
          reportStep { defaultConfig [exampleURL] with memprofile := "mem.prof".toList }
            ⟨true, false, none, "open report.html".toList, none⟩ ++
          [Event.logFatal, Event.exit 1] ∧
      (reportStep { defaultConfig [exampleURL] with memprofile := "mem.prof".toList }
          ⟨true, false, none, "open report.html".toList, none⟩).head? =
        some (Event.printOpenBrowser "report.html".toList) :=
  (run_and_profile_failures { defaultConfig [exampleURL] with memprofile := "mem.prof".toList }
    ⟨true, false, none, "open report.html".toList, none⟩
    (by
      rintro (h | h | ⟨h, -⟩)
      · revert h
        decide
      · revert h
        decide
      · exact h rfl)).2.1 (Or.inl rfl) (by decide) rfl

/-! ### Messages of configuration errors -/

/-- C5, refuted as stated: without a positional argument `main` prints the
usage text and exits; no error message is printed. -/
theorem missing_url_has_no_message :
    ConfigError (defaultConfig []) ∧
    main (defaultConfig []) envOk = [Event.usage, Event.exit 1] ∧
    (∀ m, Event.stderrf m ∉ main (defaultConfig []) envOk ∧
      Event.stdout m ∉ main (defaultConfig []) envOk) := by
  have hm : main (defaultConfig []) envOk = [Event.usage, Event.exit 1] := rfl
  refine ⟨Or.inl rfl, hm, ?_⟩
  intro m
  rw [hm]
  simp

/-- C5, amended: a configuration error is reported by `usageAndExit` with the
usage text, and, the missing URL apart, with a non-empty error message that
describes the error.  Without a URL the execution is the usage text and exit
status 1, with no message, whatever the other flags are.  With a URL and a
duration below the floor it is the usage text, the line `Err: ` and the
duration message.  When `applyHeaders` meets an unparseable segment it ends
the process with the usage text, the line `Err: ` and a message that ends
with the first such segment; these are the last events of `main` when it
gets to `applyHeaders`, that is with a URL, the duration in order and the CPU
profile file not requested or created.  The message is handed to
`fmt.Fprintf` as its format: it is written as it is when it holds no `%`. -/
theorem configError_messages (cfg : Config) (env : Env) :
    (cfg.args = [] → main cfg env = [Event.usage, Event.exit 1]) ∧
    (cfg.args ≠ [] → cfg.d < 20 * Second →
      main cfg env =
        [Event.usage, Event.stdout "----------------------------\nErr: ".toList,
         Event.stderrf "Duration cant be less than 20s".toList,
         Event.stderrf "\n\n".toList, Event.exit 1] ∧
      "Duration cant be less than 20s".toList ≠ [] ∧
      Fprintf "Duration cant be less than 20s".toList =
        some "Duration cant be less than 20s".toList) ∧
    (∀ req pre h post, cfg.headers ≠ [] → Split ';' cfg.headers = pre ++ h :: post →
      (∀ s ∈ pre, ¬ Unparseable s) → Unparseable h →
      applyHeaders cfg req = Except.error
        [Event.usage, Event.stdout "----------------------------\nErr: ".toList,
         Event.stderrf ("could not parse the provided input; input = ".toList ++ h),
         Event.stderrf "\n\n".toList, Event.exit 1] ∧
      "could not parse the provided input; input = ".toList ++ h ≠ [] ∧
      ('%' ∉ h →
        Fprintf ("could not parse the provided input; input = ".toList ++ h) =
          some ("could not parse the provided input; input = ".toList ++ h))) ∧
    (∀ out, applyHeaders cfg Request.new = Except.error out →
      cfg.args ≠ [] → 20 * Second ≤ cfg.d → (cfg.cpuprofile = [] ∨ env.createCpu = true) →
      main cfg env = (if cfg.cpuprofile ≠ [] then [Event.startCPUProfile] else []) ++ out) ∧
    Fprintf "\n\n".toList = some "\n\n".toList := by
  refine ⟨?_, ?_, ?_, ?_, by decide⟩
  · intro hargs
    rw [main_no_args cfg env hargs, usageAndExit_nil]
  · intro hargs hd
    rw [main_short cfg env hargs hd, usageAndExit_of_ne_nil _ durationMsg_ne_nil]
    exact ⟨rfl, by decide, by decide⟩
  · intro req pre h post hne hs hpre hh
    rw [applyHeaders_error cfg req pre h post hne hs hpre hh,
      usageAndExit_of_ne_nil _ (parseErrorMsg_ne_nil h)]
    refine ⟨rfl, parseErrorMsg_ne_nil h, ?_⟩
    intro hp
    have hlit : '%' ∉ "could not parse the provided input; input = ".toList := by decide
    have hno : '%' ∉ "could not parse the provided input; input = ".toList ++ h := by
      intro hmem
      rcases List.mem_append.1 hmem with h1 | h1
      · exact hlit h1
      · exact hp h1
    rw [Fprintf, if_neg hno]
  · intro out ho hargs hd hp
    rw [main_proceeds cfg env hargs hd hp, mainFromApplyHeaders, ho]

/-- An instance of the amended C5: `-d 1s` prints the usage text and the
duration message. -/
theorem configError_messages_witness :
    main { defaultConfig [exampleURL] with d := 1 * Second } envOk =
        [Event.usage, Event.stdout "----------------------------\nErr: ".toList,
         Event.stderrf "Duration cant be less than 20s".toList,
         Event.stderrf "\n\n".toList, Event.exit 1] ∧
      "Duration cant be less than 20s".toList ≠ [] ∧
      Fprintf "Duration cant be less than 20s".toList =
        some "Duration cant be less than 20s".toList :=
  (configError_messages { defaultConfig [exampleURL] with d := 1 * Second } envOk).2.1
    (by decide) (by decide)

end Fasthttploader
